import Mathlib

/-!
# Verification of the snkv embedded key-value store

Shallow embedding of the snkv storage engine and its Python binding layer
(`python/snkv/__init__.py`).  The engine itself (`_snkv`) is a native
extension whose sources are not part of this repository checkout; every
definition that stands for engine behaviour is marked
`Modelled from the spec:` and follows §3–§7 of the design document.
Binding-layer definitions are translated directly from the Python source.

Keys and values are raw byte strings, modelled as `List Nat`.
-/

namespace Snkv

/-- A byte string (key or value).  Bytes are modelled as `Nat`; all engine
behaviour depends only on equality and byte-wise lexicographic order. -/
abbrev Bytes := List Nat

/-- Modelled from the spec: error taxonomy (§7) — kinds, not concrete types. -/
inductive Err where
  | notFound
  | busy
  | locked
  | readOnly
  | corrupt
  | generic
deriving Repr, DecidableEq

/-- Modelled from the spec: the "no expiry" sentinel `NO_TTL = -1` returned
by `ttl_remaining` for a key that exists without a TTL Record. -/
def NO_TTL : Int := -1

/-- Strict byte-wise lexicographic order on byte strings (§4.2: "Iteration
order is always ascending lexicographic by raw bytes"). -/
def lexLt : Bytes → Bytes → Bool
  | [], [] => false
  | [], _ :: _ => true
  | _ :: _, [] => false
  | a :: as, b :: bs => a < b || (a == b && lexLt as bs)

/-! ## Prefix iteration (§4.2)

Modelled from the spec: the B-tree yields its keys in ascending byte-wise
lexicographic order.  `prefix_iterator(p)` is implemented as "locate the
first key ≥ prefix, then advance while the key retains the prefix as a
byte-wise prefix match".  The spec-side description is "the exact set of
keys byte-wise prefixed by the query, in ascending order". -/

/-- Modelled from the spec: the engine's prefix scan over the ascending key
sequence `ks` of one column family — drop keys below the prefix (seek to
the first key ≥ `p`), then take keys while the prefix still matches. -/
def prefixScan (p : Bytes) (ks : List Bytes) : List Bytes :=
  (ks.dropWhile (fun k => lexLt k p)).takeWhile (fun k => p.isPrefixOf k)

/-- The spec's description of the result: the keys of which `p` is a
byte-wise prefix, in stored (ascending) order. -/
def prefixKeysSpec (p : Bytes) (ks : List Bytes) : List Bytes :=
  ks.filter (fun k => p.isPrefixOf k)

/-- Ascending byte-lexicographic order of a key sequence (keys are unique
per column family, so the order is strict). -/
def Ascending (ks : List Bytes) : Prop :=
  ks.Pairwise (fun a b => lexLt a b = true)

/-! ## Column-family data and the TTL subsystem (§3, §4.6)

Modelled from the spec: an `Entry` is `{key, value}`; a `TTL Record` is
`{key, expire_at_ms}`, associated 1:1 with an Entry when a caller supplies
an expiry; absence of a TTL Record means the entry never expires.  A column
family's contents are modelled as an association list from keys to entries,
each entry carrying its optional TTL Record timestamp. -/

/-- One stored entry: the value plus the optional associated TTL Record
(`expire_at_ms`); `none` means no TTL Record exists for the key. -/
structure Entry where
  value : Bytes
  expireAt : Option Int
deriving Repr, DecidableEq

/-- The contents of one column family. -/
abbrev CFData := List (Bytes × Entry)

/-- Look up the entry stored under `k`. -/
def cfLookup (d : CFData) (k : Bytes) : Option Entry :=
  List.lookup k d

/-- Remove every binding of `k` (both value and TTL Record: they live in
the same entry, so they are removed together, per invariant (c) of §3). -/
def cfRemove (d : CFData) (k : Bytes) : CFData :=
  d.filter (fun kv => !(kv.1 == k))

/-- Modelled from the spec: B-tree `put(key, value)` — insert or update.
A plain write stores `expireAt = none`, removing any existing TTL Record
atomically with the value write (§3); `put_with_ttl` stores the timestamp. -/
def cfPut (d : CFData) (k : Bytes) (e : Entry) : CFData :=
  (k, e) :: cfRemove d k

/-- Modelled from the spec: B-tree `delete(key)`, failing with NotFound if
the key is absent. -/
def cfDelete (d : CFData) (k : Bytes) : Except Err CFData :=
  if (cfLookup d k).isSome then .ok (cfRemove d k) else .error .notFound

/-- Modelled from the spec: `exists(key)` — whether an entry is stored. -/
def cfExists (d : CFData) (k : Bytes) : Bool :=
  (cfLookup d k).isSome

/-- Modelled from the spec (§4.6): engine `get_ttl(cf, key)` at time
`now` (ms).  If a TTL Record exists and `now_ms >= expire_at_ms`, delete
both value and TTL Record as a side effect and behave as NotFound;
otherwise return the value (paired with the remaining ms, `NO_TTL` when no
TTL Record exists).  Returns the result and the post-state. -/
def cfGetTTL (now : Int) (d : CFData) (k : Bytes) :
    Except Err (Bytes × Int) × CFData :=
  match cfLookup d k with
  | none => (.error .notFound, d)
  | some e =>
    match e.expireAt with
    | none => (.ok (e.value, NO_TTL), d)
    | some t =>
      if t ≤ now then (.error .notFound, cfRemove d k)
      else (.ok (e.value, t - now), d)

/-- Modelled from the spec (§4.6): engine `ttl_remaining(cf, key)` at time
`now` (ms).  `NO_TTL` sentinel if the key exists without a TTL Record; `0`
with the lazy-deletion side effect if the key exists but its expiry has
passed; NotFound if the key does not exist at all. -/
def cfTtlRemaining (now : Int) (d : CFData) (k : Bytes) :
    Except Err Int × CFData :=
  match cfLookup d k with
  | none => (.error .notFound, d)
  | some e =>
    match e.expireAt with
    | none => (.ok NO_TTL, d)
    | some t =>
      if t ≤ now then (.ok 0, cfRemove d k)
      else (.ok (t - now), d)

/-- Modelled from the spec (§4.6): `purge_expired(cf)` deletes every entry
whose `expire_at_ms` has passed and returns the count removed. -/
def cfPurgeExpired (now : Int) (d : CFData) : Nat × CFData :=
  let expired := fun (kv : Bytes × Entry) =>
    match kv.2.expireAt with
    | some t => t ≤ now
    | none => false
  ((d.filter (fun kv => expired kv)).length, d.filter (fun kv => !(expired kv)))

/-! ## Binding layer (python/snkv/__init__.py)

The binding converts host values to bytes (`_enc`), maps engine errors to
Python exceptions, and wraps `get`/`__getitem__`/`ttl`.  `NotFoundError`
is a subclass of `KeyError` (source comments at `__getitem__`). -/

/-- A Python value passed as a key or value to the binding layer. -/
inductive PyVal where
  | str (s : String)
  | bytes (b : Bytes)
  | bytearray (b : Bytes)
  | memoryview (b : Bytes)
  | otherObj
deriving Repr, DecidableEq

/-- A Python exception raised by the binding: an engine error mapped onto
the `snkv` exception hierarchy, or a `TypeError` from `_enc`. -/
inductive PyErr where
  | engine (e : Err)
  | typeError
deriving Repr, DecidableEq

/-- Whether a binding-level exception is (a subclass of) `KeyError`:
`NotFoundError` IS-A `KeyError`; no other raised type is. -/
def isKeyError : PyErr → Bool
  | .engine .notFound => true
  | _ => false

/-- `_enc`: encode str → bytes (UTF-8); pass bytes/bytearray/memoryview
through; any other type raises `TypeError`. -/
def enc : PyVal → Except PyErr Bytes
  | .str s => .ok (s.toUTF8.toList.map (fun c => c.toNat))
  | .bytes b => .ok b
  | .bytearray b => .ok b
  | .memoryview b => .ok b
  | .otherObj => .error .typeError

/-- `KVStore.get(key, default)`: call `get_ttl` and return the value,
catching `NotFoundError` and returning `default` instead; other engine
errors and `_enc`'s `TypeError` propagate. -/
def kvstoreGet (now : Int) (d : CFData) (key : PyVal) (dflt : Option Bytes) :
    Except PyErr (Option Bytes) × CFData :=
  match enc key with
  | .error e => (.error e, d)
  | .ok k =>
    match cfGetTTL now d k with
    | (.ok (v, _), d') => (.ok (some v), d')
    | (.error e, d') =>
      if e = .notFound then (.ok dflt, d') else (.error (.engine e), d')

/-- `ColumnFamily.get(key, default)`: identical body to `KVStore.get`. -/
def columnFamilyGet (now : Int) (d : CFData) (key : PyVal)
    (dflt : Option Bytes) : Except PyErr (Option Bytes) × CFData :=
  match enc key with
  | .error e => (.error e, d)
  | .ok k =>
    match cfGetTTL now d k with
    | (.ok (v, _), d') => (.ok (some v), d')
    | (.error e, d') =>
      if e = .notFound then (.ok dflt, d') else (.error (.engine e), d')

/-- `KVStore.__getitem__`: call `get_ttl` and let `NotFoundError`
(IS-A `KeyError`) propagate directly, so expired keys raise `KeyError`
rather than returning stale data. -/
def kvstoreGetItem (now : Int) (d : CFData) (key : PyVal) :
    Except PyErr Bytes × CFData :=
  match enc key with
  | .error e => (.error e, d)
  | .ok k =>
    match cfGetTTL now d k with
    | (.ok (v, _), d') => (.ok v, d')
    | (.error e, d') => (.error (.engine e), d')

/-- `KVStore.ttl(key)`: call `ttl_remaining`; `NO_TTL` maps to `None`,
any other value is divided by 1000.0 into seconds. -/
def kvstoreTtl (now : Int) (d : CFData) (key : PyVal) :
    Except PyErr (Option ℚ) × CFData :=
  match enc key with
  | .error e => (.error e, d)
  | .ok k =>
    match cfTtlRemaining now d k with
    | (.ok r, d') =>
      (if r = NO_TTL then .ok none else .ok (some ((r : ℚ) / 1000)), d')
    | (.error e, d') => (.error (.engine e), d')

/-! ## Transaction manager (§4.5)

Modelled from the spec: states `IDLE -> (begin) -> ACTIVE -> (commit |
rollback) -> IDLE`; one write transaction at a time per connection; nested
`begin` while active fails; writes inside an active transaction are
visible to subsequent reads on the same connection (read-your-own-writes);
`commit` makes them all durable, `rollback` undoes them all (including TTL
writes), leaving prior committed state intact; a failed operation inside a
transaction does not auto-rollback (§7). -/

/-- One write operation addressed at the default column family. -/
inductive WriteOp where
  | put (k v : Bytes)
  | putTTL (k v : Bytes) (t : Int)
  | del (k : Bytes)
deriving Repr, DecidableEq

/-- Apply one write to column-family contents.  A `delete` of an absent
key fails with NotFound; per §7 the failure leaves the transaction state
unchanged (no auto-rollback). -/
def applyOp (d : CFData) : WriteOp → CFData
  | .put k v => cfPut d k ⟨v, none⟩
  | .putTTL k v t => cfPut d k ⟨v, some t⟩
  | .del k =>
    match cfDelete d k with
    | .ok d' => d'
    | .error _ => d

/-- Modelled from the spec: one connection — the committed contents plus
the working copy of an active write transaction (`none` when idle). -/
structure Conn where
  committed : CFData
  txn : Option CFData
deriving Repr, DecidableEq

/-- `begin(write=True)`: fails if a transaction is already active, else
opens a working copy of the committed state. -/
def connBegin (c : Conn) : Except Err Conn :=
  match c.txn with
  | some _ => .error .busy
  | none => .ok { c with txn := some c.committed }

/-- `commit()`: installs the working copy as the committed state. -/
def connCommit (c : Conn) : Except Err Conn :=
  match c.txn with
  | some d => .ok { committed := d, txn := none }
  | none => .error .generic

/-- `rollback()`: discards the working copy entirely. -/
def connRollback (c : Conn) : Except Err Conn :=
  match c.txn with
  | some _ => .ok { committed := c.committed, txn := none }
  | none => .error .generic

/-- A write on the connection: applied to the working copy inside an
active transaction, auto-committed otherwise. -/
def connWrite (c : Conn) (op : WriteOp) : Conn :=
  match c.txn with
  | some d => { c with txn := some (applyOp d op) }
  | none => { c with committed := applyOp c.committed op }

/-- The contents visible to reads on this connection
(read-your-own-writes: the working copy while a transaction is active). -/
def connView (c : Conn) : CFData :=
  c.txn.getD c.committed

/-! ## Column-family registry (§4.3)

Modelled from the spec: a catalog mapping names to contents; names with
the reserved prefix (`__`, e.g. the internal `__snkv_ttl__` namespace) are
rejected at create/open and filtered from `list()`. -/

/-- The reserved name prefix for internal bookkeeping namespaces. -/
def reservedPrefix : String := "__"

/-- Whether a column-family name begins with the reserved prefix. -/
def isReserved (n : String) : Bool :=
  reservedPrefix.data.isPrefixOf n.data

/-- Modelled from the spec: the column-family catalog.  The default
(unnamed) column family is the entry under `""`; internal namespaces
(such as the TTL index) may also be present. -/
structure Registry where
  cfs : List (String × CFData)
deriving Repr, DecidableEq

/-- `create(name)`: fails if the name uses the reserved prefix or already
exists in the catalog. -/
def cfCreate (r : Registry) (n : String) : Except Err Registry :=
  if isReserved n then .error .generic
  else if (r.cfs.map Prod.fst).contains n then .error .generic
  else .ok { cfs := r.cfs ++ [(n, [])] }

/-- `open(name)`: fails with NotFound if the name uses the reserved prefix
(the TTL bookkeeping namespace is never openable by name) or is absent. -/
def cfOpen (r : Registry) (n : String) : Except Err CFData :=
  if isReserved n then .error .notFound
  else
    match List.lookup n r.cfs with
    | some d => .ok d
    | none => .error .notFound

/-- `list()`: user-visible names only — reserved-prefix namespaces are
filtered out. -/
def cfList (r : Registry) : List String :=
  (r.cfs.map Prod.fst).filter (fun n => !(isReserved n))

/-- Write `k ↦ v` (a plain put) in the column family named `cf`. -/
def regPut (r : Registry) (cf : String) (k v : Bytes) : Registry :=
  { cfs := r.cfs.map (fun p =>
      if p.1 = cf then (p.1, cfPut p.2 k ⟨v, none⟩) else p) }

/-- Read the raw entry of `k` in the column family named `cf` (none when
the column family is absent or the key unset). -/
def regLookup (r : Registry) (cf : String) (k : Bytes) : Option Entry :=
  match List.lookup cf r.cfs with
  | some d => cfLookup d k
  | none => none

/-- The result of a `get` of `k` issued against the column family named
`cf` (NotFound when the column family itself is absent). -/
def regGet (now : Int) (r : Registry) (cf : String) (k : Bytes) :
    Except Err (Bytes × Int) :=
  match List.lookup cf r.cfs with
  | some d => (cfGetTTL now d k).1
  | none => .error .notFound

/-! ## WAL checkpointing (§4.4) -/

/-- Journal mode selected at open time: `JOURNAL_WAL` or `JOURNAL_DELETE`
(rollback journal). -/
inductive JournalMode where
  | wal
  | delete
deriving Repr, DecidableEq

/-- Checkpoint mode: `CHECKPOINT_PASSIVE | FULL | RESTART | TRUNCATE`. -/
inductive CkptMode where
  | passive
  | full
  | restart
  | truncate
deriving Repr, DecidableEq

/-- Modelled from the spec: the durability-relevant state of one open
store — journal mode, committed contents, the number of frames currently
in the WAL, and whether a write transaction is open on the connection. -/
structure Store where
  jmode : JournalMode
  data : CFData
  walFrames : Nat
  writeTxn : Bool
deriving Repr, DecidableEq

/-- Modelled from the spec (§4.4): `checkpoint(mode)` returns
`(frames_total, frames_copied)` and the post-state.
On a rollback-journal database it is a no-op returning `(0, 0)`.
While a write transaction is open it fails with a Busy-class error.
Otherwise every mode copies the WAL frames into the main file (the spec's
PASSIVE may copy fewer under concurrent readers; with no concurrent reader
pinning frames it copies all, and any mode leaves the committed contents
untouched); `TRUNCATE` additionally truncates the log, so the reported
`frames_total` — measured after the checkpoint — is `0`. -/
def checkpoint (s : Store) (m : CkptMode) :
    Except Err ((Nat × Nat) × Store) :=
  match s.jmode with
  | .delete => .ok ((0, 0), s)
  | .wal =>
    if s.writeTxn then .error .busy
    else
      match m with
      | .truncate => .ok ((0, s.walFrames), { s with walFrames := 0 })
      | .restart => .ok ((s.walFrames, s.walFrames), { s with walFrames := 0 })
      | .full => .ok ((s.walFrames, s.walFrames), s)
      | .passive => .ok ((s.walFrames, s.walFrames), s)

/-! ## Order and prefix lemmas -/

theorem lexLt_irrefl (a : Bytes) : lexLt a a = false := by
  induction a with
  | nil => rfl
  | cons x xs ih => simp [lexLt, ih]

theorem lexLt_trans : ∀ {a b c : Bytes},
    lexLt a b = true → lexLt b c = true → lexLt a c = true := by
  intro a
  induction a with
  | nil =>
    intro b c hab hbc
    cases b with
    | nil => exact absurd hab (by simp [lexLt])
    | cons y ys =>
      cases c with
      | nil => exact absurd hbc (by simp [lexLt])
      | cons z zs => simp [lexLt]
  | cons x xs ih =>
    intro b c hab hbc
    cases b with
    | nil => exact absurd hab (by simp [lexLt])
    | cons y ys =>
      cases c with
      | nil => exact absurd hbc (by simp [lexLt])
      | cons z zs =>
        simp only [lexLt, Bool.or_eq_true, Bool.and_eq_true, beq_iff_eq,
          decide_eq_true_eq] at hab hbc ⊢
        rcases hab with h1 | ⟨h1, h1'⟩ <;> rcases hbc with h2 | ⟨h2, h2'⟩
        · exact Or.inl (Nat.lt_trans h1 h2)
        · exact Or.inl (h2 ▸ h1)
        · exact Or.inl (h1 ▸ h2)
        · exact Or.inr ⟨h1.trans h2, ih h1' h2'⟩

/-- Totality: two byte strings that are mutually not-less are equal. -/
theorem lexLt_total : ∀ {a b : Bytes},
    lexLt a b = false → lexLt b a = false → a = b := by
  intro a
  induction a with
  | nil =>
    intro b hab _
    cases b with
    | nil => rfl
    | cons y ys => exact absurd hab (by simp [lexLt])
  | cons x xs ih =>
    intro b hab hba
    cases b with
    | nil => exact absurd hba (by simp [lexLt])
    | cons y ys =>
      simp only [lexLt, Bool.or_eq_false_iff, Bool.and_eq_false_iff,
        beq_eq_false_iff_ne, ne_eq, decide_eq_false_iff_not, Nat.not_lt] at hab hba
      obtain ⟨hxy, hab'⟩ := hab
      obtain ⟨hyx, hba'⟩ := hba
      have hxyeq : x = y := Nat.le_antisymm hyx hxy
      subst hxyeq
      rcases hab' with h | h
      · exact absurd rfl h
      · rcases hba' with h' | h'
        · exact absurd rfl h'
        · exact congrArg (x :: ·) (ih h h')

/-- A byte string is never lexicographically below its own prefix. -/
theorem lexLt_eq_false_of_isPrefixOf {p k : Bytes}
    (h : p.isPrefixOf k = true) : lexLt k p = false := by
  induction p generalizing k with
  | nil =>
    cases k with
    | nil => rfl
    | cons y ys => rfl
  | cons x xs ih =>
    cases k with
    | nil => exact absurd h (by simp [List.isPrefixOf])
    | cons y ys =>
      simp only [List.isPrefixOf, Bool.and_eq_true, beq_iff_eq] at h
      obtain ⟨hxy, h'⟩ := h
      subst hxy
      simp [lexLt, ih h']

/-- Keys carrying prefix `p` form a contiguous range: if `a ≥ p`, `p` is not
a prefix of `a`, but `p` is a prefix of `b`, then `a ≥ b` as well (so below
`b` no further prefix match can occur once one key ≥ `p` has failed). -/
theorem lexLt_eq_false_of_prefix_gap : ∀ {p a b : Bytes},
    lexLt a p = false → p.isPrefixOf a = false → p.isPrefixOf b = true →
    lexLt a b = false := by
  intro p
  induction p with
  | nil =>
    intro a b _ hpa _
    exact absurd hpa (by simp [List.isPrefixOf])
  | cons x xs ih =>
    intro a b hap hpa hpb
    cases a with
    | nil => exact absurd hap (by simp [lexLt])
    | cons y ys =>
      cases b with
      | nil => exact absurd hpb (by simp [List.isPrefixOf])
      | cons z zs =>
        simp only [List.isPrefixOf, Bool.and_eq_true, beq_iff_eq] at hpb
        obtain ⟨hxz, hpb'⟩ := hpb
        subst hxz
        simp only [lexLt, Bool.or_eq_false_iff, Bool.and_eq_false_iff,
          beq_eq_false_iff_ne, ne_eq, decide_eq_false_iff_not, Nat.not_lt] at hap
        obtain ⟨hxy, hap'⟩ := hap
        by_cases hyx : y = x
        · subst hyx
          simp only [List.isPrefixOf, beq_self_eq_true, Bool.true_and] at hpa
          rcases hap' with h | h
          · exact absurd rfl h
          · have := ih h hpa hpb'
            simp [lexLt, this]
        · have hlt : x < y := Nat.lt_of_le_of_ne hxy (fun h => hyx h.symm)
          simp only [lexLt, Bool.or_eq_false_iff, Bool.and_eq_false_iff]
          constructor
          · simp [Nat.not_lt, Nat.le_of_lt hlt]
          · left
            simp [hyx]

theorem isPrefixOf_refl (p : Bytes) : p.isPrefixOf p = true := by
  induction p with
  | nil => rfl
  | cons x xs ih => simp [List.isPrefixOf, ih]

/-- On a tail whose members are all ≥ `p`, take-while-prefix equals
filter-prefix: after the first failure no later key can match. -/
theorem takeWhile_prefix_eq_filter {p : Bytes} : ∀ {ks : List Bytes},
    Ascending ks → (∀ k ∈ ks, lexLt k p = false) →
    ks.takeWhile (fun k => p.isPrefixOf k) = ks.filter (fun k => p.isPrefixOf k) := by
  intro ks
  induction ks with
  | nil => intro _ _; rfl
  | cons a ks ih =>
    intro hasc hge
    rcases List.pairwise_cons.mp hasc with ⟨ha, htail⟩
    by_cases hpa : p.isPrefixOf a = true
    · simp only [List.takeWhile_cons, List.filter_cons, hpa, if_pos trivial]
      rw [ih htail (fun k hk => hge k (List.mem_cons_of_mem a hk))]
    · have hpa' : p.isPrefixOf a = false := Bool.eq_false_iff.mpr hpa
      have hnone : ∀ k ∈ ks, ¬ (p.isPrefixOf k = true) := by
        intro k hk hpk
        have hlt : lexLt a k = true := ha k hk
        have : lexLt a k = false :=
          lexLt_eq_false_of_prefix_gap (hge a (List.mem_cons_self a ks)) hpa' hpk
        simp [this] at hlt
      simp only [List.takeWhile_cons, List.filter_cons, hpa']
      simp only [Bool.false_eq_true, ↓reduceIte]
      rw [List.filter_eq_nil_iff.mpr (by intro k hk; simpa using hnone k hk)]

/-- On an ascending key sequence, the engine's seek-then-advance prefix scan
returns exactly the filtered key set, in order. -/
theorem prefixScan_eq_spec {p : Bytes} : ∀ {ks : List Bytes},
    Ascending ks → prefixScan p ks = prefixKeysSpec p ks := by
  intro ks
  induction ks with
  | nil => intro _; rfl
  | cons a ks ih =>
    intro hasc
    rcases List.pairwise_cons.mp hasc with ⟨ha, htail⟩
    by_cases hlt : lexLt a p = true
    · have hpa : p.isPrefixOf a = false := by
        by_cases h : p.isPrefixOf a = true
        · exact absurd hlt (by simp [lexLt_eq_false_of_isPrefixOf h])
        · exact Bool.eq_false_iff.mpr h
      simp only [prefixScan, prefixKeysSpec, List.dropWhile_cons, hlt,
        List.filter_cons, hpa]
      simp only [↓reduceIte, Bool.false_eq_true]
      exact ih htail
    · have hge : lexLt a p = false := Bool.eq_false_iff.mpr hlt
      have hgeall : ∀ k ∈ a :: ks, lexLt k p = false := by
        intro k hk
        rcases List.mem_cons.mp hk with h | h
        · exact h ▸ hge
        · have hak : lexLt a k = true := ha k h
          by_cases hkp : lexLt k p = true
          · exact absurd (lexLt_trans hak hkp) (by simp [hge])
          · exact Bool.eq_false_iff.mpr hkp
      simp only [prefixScan, prefixKeysSpec, List.dropWhile_cons, hge]
      simp only [Bool.false_eq_true, ↓reduceIte]
      exact takeWhile_prefix_eq_filter hasc hgeall

/-- The scan's output is itself ascending (it is a sublist of the input). -/
theorem prefixScan_ascending {p : Bytes} {ks : List Bytes}
    (hasc : Ascending ks) : Ascending (prefixScan p ks) := by
  rw [prefixScan_eq_spec hasc]
  exact List.Pairwise.sublist (List.filter_sublist ks) hasc

/-! ## Association-list lemmas -/

theorem cfLookup_cfRemove (d : CFData) (k : Bytes) :
    cfLookup (cfRemove d k) k = none := by
  induction d with
  | nil => rfl
  | cons kv d ih =>
    by_cases h : kv.1 = k
    · simpa [cfRemove, cfLookup, h] using ih
    · have hbeq : (kv.1 == k) = false := by simp [h]
      have hbeq2 : (k == kv.1) = false := by
        simp [beq_eq_false_iff_ne]; exact fun he => h he.symm
      simp only [cfRemove, List.filter_cons, hbeq, Bool.not_false]
      simp only [↓reduceIte, cfLookup, List.lookup, hbeq2]
      exact ih

theorem cfLookup_cfRemove_ne (d : CFData) {k k' : Bytes} (h : k' ≠ k) :
    cfLookup (cfRemove d k) k' = cfLookup d k' := by
  induction d with
  | nil => rfl
  | cons kv d ih =>
    by_cases hk : kv.1 = k
    · have hbeq : (kv.1 == k) = true := by simp [hk]
      have hne : (k' == kv.1) = false := by
        simp [beq_eq_false_iff_ne]; exact fun he => h (he.trans hk)
      simp only [cfRemove, List.filter_cons, hbeq, Bool.not_true]
      simp only [Bool.false_eq_true, ↓reduceIte, cfLookup, List.lookup, hne]
      exact ih
    · have hbeq : (kv.1 == k) = false := by simp [hk]
      simp only [cfRemove, List.filter_cons, hbeq, Bool.not_false]
      simp only [↓reduceIte, cfLookup, List.lookup]
      by_cases h' : k' = kv.1
      · simp [h']
      · have : (k' == kv.1) = false := by simp [h']
        simp only [this]
        exact ih

theorem cfLookup_cfPut_self (d : CFData) (k : Bytes) (e : Entry) :
    cfLookup (cfPut d k e) k = some e := by
  simp [cfPut, cfLookup, List.lookup]

theorem cfLookup_cfPut_ne (d : CFData) {k k' : Bytes} (e : Entry)
    (h : k' ≠ k) : cfLookup (cfPut d k e) k' = cfLookup d k' := by
  have : (k' == k) = false := by simp [h]
  simp only [cfPut, cfLookup, List.lookup, this]
  exact cfLookup_cfRemove_ne d h

/-- `cfGetTTL` only ever fails with NotFound. -/
theorem cfGetTTL_error_eq {now : Int} {d : CFData} {k : Bytes} {e : Err}
    (h : (cfGetTTL now d k).1 = .error e) : e = .notFound := by
  unfold cfGetTTL at h
  split at h
  · cases h; rfl
  · split at h
    · cases h
    · split at h
      · cases h; rfl
      · cases h

/-! ## Transaction-layer lemmas -/

theorem connWrite_foldl_active (ops : List WriteOp) :
    ∀ (m d : CFData),
      ops.foldl connWrite { committed := m, txn := some d } =
        { committed := m, txn := some (ops.foldl applyOp d) } := by
  induction ops with
  | nil => intro m d; rfl
  | cons op ops ih =>
    intro m d
    simp only [List.foldl_cons, connWrite]
    exact ih m (applyOp d op)

/-- The two binding-layer `get` methods have identical bodies. -/
theorem columnFamilyGet_eq_kvstoreGet : columnFamilyGet = kvstoreGet := rfl

/-- `regPut` in column family `a` leaves the catalog entry of any other
name untouched. -/
theorem lookup_regPut_map (a b : String) (k v : Bytes) (h : b ≠ a) :
    ∀ cfs : List (String × CFData),
      List.lookup b (cfs.map (fun p =>
        if p.1 = a then (p.1, cfPut p.2 k ⟨v, none⟩) else p)) =
      List.lookup b cfs := by
  intro cfs
  induction cfs with
  | nil => rfl
  | cons p cfs ih =>
    rcases p with ⟨n, dd⟩
    rw [List.map_cons]
    by_cases hpa : n = a
    · subst hpa
      have hbn : (b == n) = false := by simp [h]
      rw [if_pos rfl]
      simp only [List.lookup, hbn]
      exact ih
    · rw [if_neg hpa]
      by_cases hb : b = n
      · simp [List.lookup, hb]
      · have hbn : (b == n) = false := by simp [hb]
        simp only [List.lookup, hbn]
        exact ih

/-- With an encodable key, `KVStore.get` either returns the looked-up
value or — when the engine reports NotFound — the caller's default, never
an error. -/
theorem kvstoreGet_ok (now : Int) (d : CFData) {key : PyVal} {k : Bytes}
    (dflt : Option Bytes) (hk : enc key = .ok k) :
    (∃ v d2, cfGetTTL now d k = (.ok v, d2) ∧
      kvstoreGet now d key dflt = (.ok (some v.1), d2)) ∨
    (∃ d2, cfGetTTL now d k = (.error .notFound, d2) ∧
      kvstoreGet now d key dflt = (.ok dflt, d2)) := by
  rcases hc : cfGetTTL now d k with ⟨res, d2⟩
  cases res with
  | ok p =>
    left
    exact ⟨p, d2, rfl, by simp [kvstoreGet, hk, hc]⟩
  | error e =>
    have he : e = .notFound :=
      cfGetTTL_error_eq (by rw [hc])
    subst he
    right
    exact ⟨d2, rfl, by simp [kvstoreGet, hk, hc]⟩

/-! ## Claims -/

/-- Claim C1: every sequence of put/delete operations performed between
`begin(write=True)` and `rollback()` leaves no observable trace — the
connection returns exactly to its pre-`begin` state, so every subsequent
read (get/exists/iteration) behaves as before; and between
`begin(write=True)` and `commit()`, the committed contents afterwards are
exactly the sequence of writes applied to the prior committed contents, so
every write is observable. -/
theorem txn_rollback_commit_atomicity (c : Conn) (ops : List WriteOp)
    (h : c.txn = none) :
    connBegin c = .ok { committed := c.committed, txn := some c.committed } ∧
    connRollback (ops.foldl connWrite
      { committed := c.committed, txn := some c.committed }) = .ok c ∧
    connCommit (ops.foldl connWrite
      { committed := c.committed, txn := some c.committed }) =
      .ok { committed := ops.foldl applyOp c.committed, txn := none } := by
  refine ⟨?_, ?_, ?_⟩
  · simp [connBegin, h]
  · rw [connWrite_foldl_active]
    simp only [connRollback]
    cases c with
    | mk m t => cases h; rfl
  · rw [connWrite_foldl_active]
    rfl

/-- Witness for C1 at a concrete connection and write sequence: a put of a
fresh key, an update of a committed key, a TTL write and a delete, all
between `begin` and `rollback`/`commit`. -/
theorem txn_rollback_commit_atomicity_witness :
    connBegin { committed := [([1], ⟨[9], none⟩)], txn := none } =
      .ok { committed := [([1], ⟨[9], none⟩)],
            txn := some [([1], ⟨[9], none⟩)] } ∧
    connRollback ([WriteOp.put [2] [5], WriteOp.put [1] [7],
        WriteOp.putTTL [3] [8] 1000, WriteOp.del [1]].foldl connWrite
      { committed := [([1], ⟨[9], none⟩)],
        txn := some [([1], ⟨[9], none⟩)] }) =
      .ok { committed := [([1], ⟨[9], none⟩)], txn := none } ∧
    connCommit ([WriteOp.put [2] [5], WriteOp.put [1] [7],
        WriteOp.putTTL [3] [8] 1000, WriteOp.del [1]].foldl connWrite
      { committed := [([1], ⟨[9], none⟩)],
        txn := some [([1], ⟨[9], none⟩)] }) =
      .ok { committed := [WriteOp.put [2] [5], WriteOp.put [1] [7],
              WriteOp.putTTL [3] [8] 1000, WriteOp.del [1]].foldl applyOp
              [([1], ⟨[9], none⟩)], txn := none } :=
  txn_rollback_commit_atomicity
    { committed := [([1], ⟨[9], none⟩)], txn := none }
    [WriteOp.put [2] [5], WriteOp.put [1] [7],
     WriteOp.putTTL [3] [8] 1000, WriteOp.del [1]] rfl

/-- Claim C2: on the ascending key sequence of a column family,
`prefix_iterator(p)` (seek to the first key ≥ `p`, advance while the
byte-wise prefix matches) yields exactly the keys of which `p` is a
byte-wise prefix — every yielded key matches, every matching key is
yielded (including a stored key equal to `p` itself) — in ascending
byte-lexicographic order; bytes are arbitrary, so prefixes ending in 0xFF
and keys with embedded null bytes are covered. -/
theorem prefix_iterator_exact_match (p : Bytes) (ks : List Bytes)
    (h : Ascending ks) :
    prefixScan p ks = ks.filter (fun k => p.isPrefixOf k) ∧
    (∀ k ∈ prefixScan p ks, p.isPrefixOf k = true) ∧
    (∀ k ∈ ks, p.isPrefixOf k = true → k ∈ prefixScan p ks) ∧
    Ascending (prefixScan p ks) ∧
    (p ∈ ks → p ∈ prefixScan p ks) := by
  have heq : prefixScan p ks = ks.filter (fun k => p.isPrefixOf k) :=
    prefixScan_eq_spec h
  refine ⟨heq, ?_, ?_, prefixScan_ascending h, ?_⟩
  · intro k hk
    rw [heq] at hk
    exact (List.mem_filter.mp hk).2
  · intro k hk hpk
    rw [heq]
    exact List.mem_filter.mpr ⟨hk, hpk⟩
  · intro hp
    rw [heq]
    exact List.mem_filter.mpr ⟨hp, isPrefixOf_refl p⟩

/-- Witness for C2 on a concrete ascending key set containing embedded
null bytes, a key ending in 0xFF, and a stored key equal to the prefix. -/
theorem prefix_iterator_exact_match_witness :
    prefixScan [1, 2]
        [[1], [1, 2], [1, 2, 0], [1, 2, 0, 7], [1, 2, 255], [1, 3], [2]] =
      List.filter (fun k => List.isPrefixOf [1, 2] k)
        [[1], [1, 2], [1, 2, 0], [1, 2, 0, 7], [1, 2, 255], [1, 3], [2]] ∧
    (∀ k ∈ prefixScan [1, 2]
        [[1], [1, 2], [1, 2, 0], [1, 2, 0, 7], [1, 2, 255], [1, 3], [2]],
      List.isPrefixOf [1, 2] k = true) ∧
    (∀ k ∈ [[1], [1, 2], [1, 2, 0], [1, 2, 0, 7], [1, 2, 255], [1, 3], [2]],
      List.isPrefixOf [1, 2] k = true →
      k ∈ prefixScan [1, 2]
        [[1], [1, 2], [1, 2, 0], [1, 2, 0, 7], [1, 2, 255], [1, 3], [2]]) ∧
    Ascending (prefixScan [1, 2]
        [[1], [1, 2], [1, 2, 0], [1, 2, 0, 7], [1, 2, 255], [1, 3], [2]]) ∧
    ([1, 2] ∈ ([[1], [1, 2], [1, 2, 0], [1, 2, 0, 7], [1, 2, 255], [1, 3], [2]] : List Bytes) →
      [1, 2] ∈ prefixScan [1, 2]
        [[1], [1, 2], [1, 2, 0], [1, 2, 0, 7], [1, 2, 255], [1, 3], [2]]) :=
  prefix_iterator_exact_match [1, 2]
    [[1], [1, 2], [1, 2, 0], [1, 2, 0, 7], [1, 2, 255], [1, 3], [2]]
    (by unfold Ascending; decide)

/-- Claim C3: `get` on a key whose TTL Record has `expire_at_ms` in the
past behaves as NotFound and as a side effect removes the entry — value
and TTL Record together — so the key subsequently does not exist; on a key
whose TTL has not passed, or that has no TTL Record, `get` returns the
stored value. -/
theorem get_lazy_expiry (now : Int) (d : CFData) (k : Bytes) (e : Entry)
    (h : cfLookup d k = some e) :
    (∀ t, e.expireAt = some t → t ≤ now →
      (cfGetTTL now d k).1 = .error .notFound ∧
      cfLookup (cfGetTTL now d k).2 k = none ∧
      cfExists (cfGetTTL now d k).2 k = false) ∧
    (∀ t, e.expireAt = some t → now < t →
      cfGetTTL now d k = (.ok (e.value, t - now), d)) ∧
    (e.expireAt = none → cfGetTTL now d k = (.ok (e.value, NO_TTL), d)) := by
  refine ⟨?_, ?_, ?_⟩
  · intro t ht hle
    have hck : cfGetTTL now d k = (.error .notFound, cfRemove d k) := by
      simp [cfGetTTL, h, ht, hle]
    rw [hck]
    exact ⟨rfl, cfLookup_cfRemove d k, by
      simp [cfExists, cfLookup_cfRemove d k]⟩
  · intro t ht hlt
    simp [cfGetTTL, h, ht, not_le.mpr hlt]
  · intro ht
    simp [cfGetTTL, h, ht]

/-- Witness for C3 at a concrete store: key `[1]` expired at 5 ms read at
10 ms, key `[2]` live until 50 ms, key `[3]` without a TTL Record. -/
theorem get_lazy_expiry_witness :
    ((cfGetTTL 10 [([1], ⟨[7], some 5⟩)] [1]).1 = .error .notFound ∧
      cfLookup (cfGetTTL 10 [([1], ⟨[7], some 5⟩)] [1]).2 [1] = none ∧
      cfExists (cfGetTTL 10 [([1], ⟨[7], some 5⟩)] [1]).2 [1] = false) ∧
    cfGetTTL 10 [([2], ⟨[8], some 50⟩)] [2] =
      (.ok ([8], (50 : Int) - 10), [([2], ⟨[8], some 50⟩)]) ∧
    cfGetTTL 10 [([3], ⟨[9], none⟩)] [3] =
      (.ok ([9], NO_TTL), [([3], ⟨[9], none⟩)]) :=
  ⟨(get_lazy_expiry 10 [([1], ⟨[7], some 5⟩)] [1] ⟨[7], some 5⟩ rfl).1
      5 rfl (by decide),
   (get_lazy_expiry 10 [([2], ⟨[8], some 50⟩)] [2] ⟨[8], some 50⟩ rfl).2.1
      50 rfl (by decide),
   (get_lazy_expiry 10 [([3], ⟨[9], none⟩)] [3] ⟨[9], none⟩ rfl).2.2 rfl⟩

/-- Counterexample to claim C4 as stated: the `ttl` operation does not
have exactly three outcomes — on a key whose TTL Record has not yet
expired it returns the positive remaining time (here 5 seconds), which is
neither the no-expiry sentinel `None`, nor `0`, nor a NotFound failure. -/
theorem ttl_three_outcomes_counterexample :
    ¬ (∀ (now : Int) (d : CFData) (key : PyVal),
        (kvstoreTtl now d key).1 = .ok none ∨
        (kvstoreTtl now d key).1 = .ok (some 0) ∨
        (kvstoreTtl now d key).1 = .error (.engine .notFound)) := by
  intro h
  have := h 0 [([1], ⟨[2], some 5000⟩)] (.bytes [1])
  have heval : (kvstoreTtl 0 [([1], ⟨[2], some 5000⟩)] (.bytes [1])).1 =
      .ok (some 5) := by
    norm_num [kvstoreTtl, enc, cfTtlRemaining, cfLookup, List.lookup, NO_TTL]
  rw [heval] at this
  rcases this with h' | h' | h' <;> simp at h'

/-- Claim C4 (amended): the `ttl` operation has four outcomes — `None`
(the no-expiry sentinel mapped from `NO_TTL = -1`) if the key exists
without a TTL Record; `0` if the key exists but its expiry has passed,
also performing the lazy deletion of value and TTL Record; a NotFound
failure if the key does not exist at all; and the positive remaining time
if the key exists with an unexpired TTL Record. -/
theorem ttl_outcomes (now : Int) (d : CFData) (k : Bytes) :
    (cfLookup d k = none →
      kvstoreTtl now d (.bytes k) = (.error (.engine .notFound), d)) ∧
    (∀ v, cfLookup d k = some ⟨v, none⟩ →
      kvstoreTtl now d (.bytes k) = (.ok none, d)) ∧
    (∀ v t, cfLookup d k = some ⟨v, some t⟩ → t ≤ now →
      (kvstoreTtl now d (.bytes k)).1 = .ok (some 0) ∧
      cfLookup (kvstoreTtl now d (.bytes k)).2 k = none) ∧
    (∀ v t, cfLookup d k = some ⟨v, some t⟩ → now < t →
      kvstoreTtl now d (.bytes k) =
        (.ok (some (((t - now : Int) : ℚ) / 1000)), d) ∧
      (0 : ℚ) < ((t - now : Int) : ℚ) / 1000) := by
  refine ⟨?_, ?_, ?_, ?_⟩
  · intro h
    simp [kvstoreTtl, enc, cfTtlRemaining, h]
  · intro v h
    simp [kvstoreTtl, enc, cfTtlRemaining, h]
  · intro v t h hle
    have hne : ((0 : Int) = NO_TTL) = False := by
      simp [NO_TTL]
    have hev : kvstoreTtl now d (.bytes k) = (.ok (some 0), cfRemove d k) := by
      simp [kvstoreTtl, enc, cfTtlRemaining, h, hle, hne]
    rw [hev]
    exact ⟨rfl, cfLookup_cfRemove d k⟩
  · intro v t h hlt
    have hne : (t - now = NO_TTL) = False := by
      simp only [NO_TTL, eq_iff_iff, iff_false]
      omega
    constructor
    · simp [kvstoreTtl, enc, cfTtlRemaining, h, not_le.mpr hlt, hne]
    · have h0 : (0 : ℚ) < ((t - now : Int) : ℚ) := by
        have : (0 : Int) < t - now := by omega
        exact_mod_cast this
      positivity

/-- Witness for C4 (amended) at a concrete store, exercising all four
outcomes: absent key, key without TTL Record, key expired at 5 ms read at
10 ms, and a key live until 4010 ms read at 10 ms. -/
theorem ttl_outcomes_witness :
    kvstoreTtl 10 [] (.bytes [1]) = (.error (.engine .notFound), []) ∧
    kvstoreTtl 10 [([1], ⟨[2], none⟩)] (.bytes [1]) =
      (.ok none, [([1], ⟨[2], none⟩)]) ∧
    ((kvstoreTtl 10 [([1], ⟨[2], some 5⟩)] (.bytes [1])).1 = .ok (some 0) ∧
      cfLookup (kvstoreTtl 10 [([1], ⟨[2], some 5⟩)] (.bytes [1])).2 [1] = none) ∧
    (kvstoreTtl 10 [([1], ⟨[2], some 4010⟩)] (.bytes [1]) =
      (.ok (some ((((4010 : Int) - 10 : Int) : ℚ) / 1000)),
        [([1], ⟨[2], some 4010⟩)]) ∧
      (0 : ℚ) < (((4010 : Int) - 10 : Int) : ℚ) / 1000) :=
  ⟨(ttl_outcomes 10 [] [1]).1 rfl,
   (ttl_outcomes 10 [([1], ⟨[2], none⟩)] [1]).2.1 [2] rfl,
   (ttl_outcomes 10 [([1], ⟨[2], some 5⟩)] [1]).2.2.1 [2] 5 rfl (by decide),
   (ttl_outcomes 10 [([1], ⟨[2], some 4010⟩)] [1]).2.2.2 [2] 4010 rfl
     (by decide)⟩

/-- Claim C5: overwriting a key that has a TTL Record with a plain put
(no ttl argument) is a single atomic state transition after which `get`
returns the new value, the entry carries no TTL Record, and `ttl` reports
the no-expiry sentinel; no state with the new value plus the old TTL
Record exists. -/
theorem plain_put_clears_ttl (now : Int) (d : CFData) (k v' : Bytes)
    (e : Entry) (h : cfLookup d k = some e) (ht : e.expireAt.isSome) :
    cfLookup (applyOp d (.put k v')) k = some ⟨v', none⟩ ∧
    cfGetTTL now (applyOp d (.put k v')) k =
      (.ok (v', NO_TTL), applyOp d (.put k v')) ∧
    kvstoreTtl now (applyOp d (.put k v')) (.bytes k) =
      (.ok none, applyOp d (.put k v')) := by
  have hl : cfLookup (applyOp d (.put k v')) k = some ⟨v', none⟩ :=
    cfLookup_cfPut_self d k ⟨v', none⟩
  refine ⟨hl, ?_, ?_⟩
  · simp [cfGetTTL, hl]
  · simp [kvstoreTtl, enc, cfTtlRemaining, hl]

/-- Witness for C5: key `[1]` carries a TTL Record expiring at 5 ms, then
is overwritten by a plain put of value `[9]`. -/
theorem plain_put_clears_ttl_witness :
    cfLookup (applyOp [([1], ⟨[7], some 5⟩)] (.put [1] [9])) [1] =
      some ⟨[9], none⟩ ∧
    cfGetTTL 10 (applyOp [([1], ⟨[7], some 5⟩)] (.put [1] [9])) [1] =
      (.ok ([9], NO_TTL), applyOp [([1], ⟨[7], some 5⟩)] (.put [1] [9])) ∧
    kvstoreTtl 10 (applyOp [([1], ⟨[7], some 5⟩)] (.put [1] [9])) (.bytes [1]) =
      (.ok none, applyOp [([1], ⟨[7], some 5⟩)] (.put [1] [9])) :=
  plain_put_clears_ttl 10 [([1], ⟨[7], some 5⟩)] [1] [9] ⟨[7], some 5⟩
    rfl (by decide)

/-- Claim C6: on a WAL-mode store with no active write transaction,
`checkpoint(CHECKPOINT_TRUNCATE)` succeeds with `frames_total = 0`, and a
checkpoint in any of the four modes leaves every previously committed key
readable with its committed value. -/
theorem checkpoint_truncate_frames_zero (s : Store)
    (hw : s.jmode = .wal) (ht : s.writeTxn = false) :
    (∃ r, checkpoint s .truncate = .ok r ∧ r.1.1 = 0) ∧
    (∀ m r, checkpoint s m = .ok r →
      ∀ k, cfLookup r.2.data k = cfLookup s.data k) := by
  constructor
  · refine ⟨((0, s.walFrames), { s with walFrames := 0 }), ?_, rfl⟩
    simp [checkpoint, hw, ht]
  · intro m r hr k
    cases m <;> simp [checkpoint, hw, ht] at hr <;> rw [← hr]

/-- Witness for C6 at a concrete WAL store holding one committed key and
three WAL frames. -/
theorem checkpoint_truncate_frames_zero_witness :
    (∃ r, checkpoint ⟨.wal, [([1], ⟨[2], none⟩)], 3, false⟩ .truncate =
        .ok r ∧ r.1.1 = 0) ∧
    (∀ m r, checkpoint ⟨.wal, [([1], ⟨[2], none⟩)], 3, false⟩ m = .ok r →
      ∀ k, cfLookup r.2.data k =
        cfLookup (⟨.wal, [([1], ⟨[2], none⟩)], 3, false⟩ : Store).data k) :=
  checkpoint_truncate_frames_zero ⟨.wal, [([1], ⟨[2], none⟩)], 3, false⟩
    rfl rfl

/-- Claim C7: on a store opened in rollback-journal mode
(`JOURNAL_DELETE`), `checkpoint` in any mode is a no-op: it succeeds with
`(0, 0)` and returns the store state — data included — unchanged. -/
theorem checkpoint_delete_mode_noop (s : Store) (m : CkptMode)
    (h : s.jmode = .delete) :
    checkpoint s m = .ok ((0, 0), s) := by
  simp [checkpoint, h]

/-- Witness for C7 at a concrete rollback-journal store, for each of the
four checkpoint modes. -/
theorem checkpoint_delete_mode_noop_witness :
    checkpoint ⟨.delete, [([1], ⟨[2], none⟩)], 0, false⟩ .passive =
      .ok ((0, 0), ⟨.delete, [([1], ⟨[2], none⟩)], 0, false⟩) ∧
    checkpoint ⟨.delete, [([1], ⟨[2], none⟩)], 0, false⟩ .full =
      .ok ((0, 0), ⟨.delete, [([1], ⟨[2], none⟩)], 0, false⟩) ∧
    checkpoint ⟨.delete, [([1], ⟨[2], none⟩)], 0, false⟩ .restart =
      .ok ((0, 0), ⟨.delete, [([1], ⟨[2], none⟩)], 0, false⟩) ∧
    checkpoint ⟨.delete, [([1], ⟨[2], none⟩)], 0, false⟩ .truncate =
      .ok ((0, 0), ⟨.delete, [([1], ⟨[2], none⟩)], 0, false⟩) :=
  ⟨checkpoint_delete_mode_noop _ .passive rfl,
   checkpoint_delete_mode_noop _ .full rfl,
   checkpoint_delete_mode_noop _ .restart rfl,
   checkpoint_delete_mode_noop _ .truncate rfl⟩

/-- Claim C8: `create_column_family` fails on a reserved-prefix name and
on an existing name; `open_column_family` fails with NotFound on any
reserved-prefix name (the internal TTL namespace is never openable); and
`list_column_families` never includes a reserved-prefix name, whatever
internal namespaces the catalog holds. -/
theorem reserved_cf_protection (r : Registry) (n : String) :
    (isReserved n = true →
      cfCreate r n = .error .generic ∧ cfOpen r n = .error .notFound) ∧
    ((r.cfs.map Prod.fst).contains n = true → ∃ e, cfCreate r n = .error e) ∧
    (∀ n' ∈ cfList r, isReserved n' = false) := by
  refine ⟨?_, ?_, ?_⟩
  · intro h
    exact ⟨by simp [cfCreate, h], by simp [cfOpen, h]⟩
  · intro h
    by_cases hres : isReserved n = true
    · exact ⟨.generic, by simp [cfCreate, hres]⟩
    · refine ⟨.generic, ?_⟩
      have hres' : isReserved n = false := Bool.eq_false_iff.mpr hres
      simp only [cfCreate, hres', Bool.false_eq_true, ↓reduceIte, h]
  · intro n' hn'
    have := List.of_mem_filter hn'
    simpa using this

/-- Witness for C8 on a catalog that already holds the default column
family, a user column family and the internal `__snkv_ttl__` namespace,
probing the reserved name `__snkv_ttl__` (also an existing name). -/
theorem reserved_cf_protection_witness :
    (isReserved "__snkv_ttl__" = true →
      cfCreate ⟨[("", []), ("users", []), ("__snkv_ttl__", [])]⟩
          "__snkv_ttl__" = .error .generic ∧
      cfOpen ⟨[("", []), ("users", []), ("__snkv_ttl__", [])]⟩
          "__snkv_ttl__" = .error .notFound) ∧
    (((⟨[("", []), ("users", []), ("__snkv_ttl__", [])]⟩ : Registry).cfs.map
        Prod.fst).contains "__snkv_ttl__" = true →
      ∃ e, cfCreate ⟨[("", []), ("users", []), ("__snkv_ttl__", [])]⟩
          "__snkv_ttl__" = .error e) ∧
    (∀ n' ∈ cfList ⟨[("", []), ("users", []), ("__snkv_ttl__", [])]⟩,
      isReserved n' = false) :=
  reserved_cf_protection ⟨[("", []), ("users", []), ("__snkv_ttl__", [])]⟩
    "__snkv_ttl__"

/-- Claim C9: for distinct column families `a` and `b` (the default,
named `""`, included), writing key `k` in `a` leaves the stored mapping of
`k` in `b` — and hence the result of a `get` of `k` in `b` (value or
not-found) — unchanged. -/
theorem cf_write_isolation (r : Registry) (a b : String) (k v : Bytes)
    (h : b ≠ a) :
    regLookup (regPut r a k v) b k = regLookup r b k ∧
    ∀ now, regGet now (regPut r a k v) b k = regGet now r b k := by
  have hl := lookup_regPut_map a b k v h r.cfs
  constructor
  · simp only [regLookup, regPut]
    rw [hl]
  · intro now
    simp only [regGet, regPut]
    rw [hl]

/-- Witness for C9: writing `[1] ↦ [9]` in the default column family `""`
leaves `[1]` in column family `"other"` untouched, and vice versa. -/
theorem cf_write_isolation_witness :
    (regLookup (regPut ⟨[("", [([1], ⟨[2], none⟩)]),
        ("other", [([1], ⟨[3], none⟩)])]⟩ "" [1] [9]) "other" [1] =
      regLookup ⟨[("", [([1], ⟨[2], none⟩)]),
        ("other", [([1], ⟨[3], none⟩)])]⟩ "other" [1] ∧
     ∀ now, regGet now (regPut ⟨[("", [([1], ⟨[2], none⟩)]),
        ("other", [([1], ⟨[3], none⟩)])]⟩ "" [1] [9]) "other" [1] =
      regGet now ⟨[("", [([1], ⟨[2], none⟩)]),
        ("other", [([1], ⟨[3], none⟩)])]⟩ "other" [1]) ∧
    (regLookup (regPut ⟨[("", [([1], ⟨[2], none⟩)]),
        ("other", [([1], ⟨[3], none⟩)])]⟩ "other" [1] [9]) "" [1] =
      regLookup ⟨[("", [([1], ⟨[2], none⟩)]),
        ("other", [([1], ⟨[3], none⟩)])]⟩ "" [1] ∧
     ∀ now, regGet now (regPut ⟨[("", [([1], ⟨[2], none⟩)]),
        ("other", [([1], ⟨[3], none⟩)])]⟩ "other" [1] [9]) "" [1] =
      regGet now ⟨[("", [([1], ⟨[2], none⟩)]),
        ("other", [([1], ⟨[3], none⟩)])]⟩ "" [1]) :=
  ⟨cf_write_isolation ⟨[("", [([1], ⟨[2], none⟩)]),
      ("other", [([1], ⟨[3], none⟩)])]⟩ "" "other" [1] [9] (by decide),
   cf_write_isolation ⟨[("", [([1], ⟨[2], none⟩)]),
      ("other", [([1], ⟨[3], none⟩)])]⟩ "other" "" [1] [9] (by decide)⟩

/-- Claim C10: `KVStore.get(key, d)` and `ColumnFamily.get(key, d)` never
raise a not-found error — for any encodable key they return a value
(`.ok`): the stored value when present and live, or the default `d` when
absent or expired — and they raise only `TypeError`, exactly for keys that
are none of str/bytes/bytearray/memoryview; `__getitem__` by contrast
raises `NotFoundError` (a subclass of `KeyError`) for a missing or expired
key. -/
theorem get_with_default_never_raises_notfound (now : Int) (d : CFData)
    (key : PyVal) (dflt : Option Bytes) :
    ((kvstoreGet now d key dflt).1 ≠ .error (.engine .notFound) ∧
     (columnFamilyGet now d key dflt).1 ≠ .error (.engine .notFound)) ∧
    (key ≠ .otherObj →
      ∃ o d2, kvstoreGet now d key dflt = (.ok o, d2) ∧
        columnFamilyGet now d key dflt = (.ok o, d2)) ∧
    (key = .otherObj →
      (kvstoreGet now d key dflt).1 = .error .typeError ∧
      (columnFamilyGet now d key dflt).1 = .error .typeError) ∧
    (∀ k, enc key = .ok k → cfLookup d k = none →
      kvstoreGet now d key dflt = (.ok dflt, d) ∧
      kvstoreGetItem now d key = (.error (.engine .notFound), d) ∧
      isKeyError (.engine .notFound) = true) ∧
    (∀ k v t, enc key = .ok k → cfLookup d k = some ⟨v, some t⟩ → t ≤ now →
      (kvstoreGet now d key dflt).1 = .ok dflt ∧
      (kvstoreGetItem now d key).1 = .error (.engine .notFound)) := by
  have hok : key ≠ .otherObj →
      ∃ o d2, kvstoreGet now d key dflt = (.ok o, d2) := by
    intro hne
    obtain ⟨k, hk⟩ : ∃ k, enc key = .ok k := by
      cases key with
      | str s => exact ⟨_, rfl⟩
      | bytes b => exact ⟨b, rfl⟩
      | bytearray b => exact ⟨b, rfl⟩
      | memoryview b => exact ⟨b, rfl⟩
      | otherObj => exact absurd rfl hne
    rcases kvstoreGet_ok now d dflt hk with
      ⟨p, d2, _, hg⟩ | ⟨d2, _, hg⟩
    · exact ⟨some p.1, d2, hg⟩
    · exact ⟨dflt, d2, hg⟩
  refine ⟨?_, ?_, ?_, ?_, ?_⟩
  · by_cases hne : key = .otherObj
    · subst hne
      constructor <;> simp [kvstoreGet, columnFamilyGet, enc]
    · obtain ⟨o, d2, hg⟩ := hok hne
      constructor <;> simp [columnFamilyGet_eq_kvstoreGet, hg]
  · intro hne
    obtain ⟨o, d2, hg⟩ := hok hne
    exact ⟨o, d2, hg, by rw [columnFamilyGet_eq_kvstoreGet]; exact hg⟩
  · intro he
    subst he
    constructor <;> simp [kvstoreGet, columnFamilyGet, enc]
  · intro k hk hnone
    have hc : cfGetTTL now d k = (.error .notFound, d) := by
      simp [cfGetTTL, hnone]
    exact ⟨by simp [kvstoreGet, hk, hc],
           by simp [kvstoreGetItem, hk, hc], rfl⟩
  · intro k v t hk hsome hle
    have hc : cfGetTTL now d k = (.error .notFound, cfRemove d k) := by
      simp [cfGetTTL, hsome, hle]
    exact ⟨by simp [kvstoreGet, hk, hc],
           by simp [kvstoreGetItem, hk, hc]⟩

/-- Witness for C10: an absent key returns the default `[5]` instead of
raising; a non-encodable key raises TypeError; an expired key returns the
default from `get` but raises through `__getitem__`. -/
theorem get_with_default_never_raises_notfound_witness :
    ((kvstoreGet 0 [([1], ⟨[2], none⟩)] (.bytes [9]) (some [5])).1 ≠
      .error (.engine .notFound)) ∧
    (∃ o d2, kvstoreGet 0 [([1], ⟨[2], none⟩)] (.bytes [9]) (some [5]) =
        (.ok o, d2) ∧
      columnFamilyGet 0 [([1], ⟨[2], none⟩)] (.bytes [9]) (some [5]) =
        (.ok o, d2)) ∧
    ((kvstoreGet 0 [([1], ⟨[2], none⟩)] .otherObj (some [5])).1 =
      .error .typeError) ∧
    (kvstoreGet 0 [([1], ⟨[2], none⟩)] (.bytes [9]) (some [5]) =
        (.ok (some [5]), [([1], ⟨[2], none⟩)]) ∧
      kvstoreGetItem 0 [([1], ⟨[2], none⟩)] (.bytes [9]) =
        (.error (.engine .notFound), [([1], ⟨[2], none⟩)]) ∧
      isKeyError (.engine .notFound) = true) ∧
    ((kvstoreGet 10 [([1], ⟨[2], some 5⟩)] (.bytes [1]) (some [5])).1 =
        .ok (some [5]) ∧
      (kvstoreGetItem 10 [([1], ⟨[2], some 5⟩)] (.bytes [1])).1 =
        .error (.engine .notFound)) :=
  ⟨(get_with_default_never_raises_notfound 0 [([1], ⟨[2], none⟩)]
      (.bytes [9]) (some [5])).1.1,
   (get_with_default_never_raises_notfound 0 [([1], ⟨[2], none⟩)]
      (.bytes [9]) (some [5])).2.1 (by decide),
   ((get_with_default_never_raises_notfound 0 [([1], ⟨[2], none⟩)]
      .otherObj (some [5])).2.2.1 rfl).1,
   (get_with_default_never_raises_notfound 0 [([1], ⟨[2], none⟩)]
      (.bytes [9]) (some [5])).2.2.2.1 [9] rfl rfl,
   (get_with_default_never_raises_notfound 10 [([1], ⟨[2], some 5⟩)]
      (.bytes [1]) (some [5])).2.2.2.2 [1] [2] 5 rfl rfl (by decide)⟩

end Snkv
